import Mathlib

/-!
Verification of the `blox` voxel path tracer.

This file shallowly embeds the computational core of the repository:

* `crates/lux/src/lib.rs` — the generic recursive ray tracer
  (`Renderer`, `fresnel`, `LinearRgb` color arithmetic, shading);
* `src/path_tracer.rs` — the voxel-grid scene intersector
  (`<LuxScene as lux::Scene>::cast_ray`, `BlockTextures::sample`, `Face`);
* `src/world.rs` — the block grid (`Block`, `BloxScene::block`, `linearize`).

Rust `f32` values are modelled as real numbers (`ℝ`); machine rounding,
infinities and NaN are outside the model and noted where relevant.
Rust integers stay within range in every modelled computation, so they are
modelled as `ℤ`/`ℕ`.  The unbounded `loop` in the voxel intersector is
modelled with an explicit fuel argument; theorems about it quantify over
the fuel.  Definitions mirror the Rust source line by line.
-/

open Real

noncomputable section

/-- A 3-vector of reals, modelling `bevy_math::Vec3` (and the payload of
`Dir3`; unit length of a `Dir3` becomes an explicit hypothesis). -/
structure Vec3 where
  x : ℝ
  y : ℝ
  z : ℝ
deriving DecidableEq

/-- A 2-vector of reals, modelling `bevy_math::Vec2` (used for UVs). -/
structure Vec2 where
  x : ℝ
  y : ℝ

/-- A 3-vector of integers, modelling `bevy_math::IVec3`. -/
structure IVec3 where
  x : ℤ
  y : ℤ
  z : ℤ
deriving DecidableEq

instance addVec3 : Add Vec3 := ⟨fun a b => ⟨a.x + b.x, a.y + b.y, a.z + b.z⟩⟩

instance subVec3 : Sub Vec3 := ⟨fun a b => ⟨a.x - b.x, a.y - b.y, a.z - b.z⟩⟩

instance negVec3 : Neg Vec3 := ⟨fun a => ⟨-a.x, -a.y, -a.z⟩⟩

instance smulVec3 : HMul ℝ Vec3 Vec3 := ⟨fun s v => ⟨s * v.x, s * v.y, s * v.z⟩⟩

instance mulVec3Real : HMul Vec3 ℝ Vec3 := ⟨fun v s => ⟨v.x * s, v.y * s, v.z * s⟩⟩

instance divVec3Real : HDiv Vec3 ℝ Vec3 := ⟨fun v s => ⟨v.x / s, v.y / s, v.z / s⟩⟩

instance addIVec3 : Add IVec3 := ⟨fun a b => ⟨a.x + b.x, a.y + b.y, a.z + b.z⟩⟩

/-- Dot product, modelling `Vec3::dot`. -/
def Vec3.dot (a b : Vec3) : ℝ :=
  a.x * b.x + a.y * b.y + a.z * b.z

/-- Squared length of a vector. -/
def Vec3.length_squared (v : Vec3) : ℝ :=
  v.x * v.x + v.y * v.y + v.z * v.z

/-- Length of a vector. -/
def Vec3.length (v : Vec3) : ℝ :=
  Real.sqrt v.length_squared

/-- Normalization `v / ‖v‖`, modelling `Vec3::normalize` and the happy path
of `Dir3::new(v).unwrap()` (the Rust code panics on a non-normalizable
vector; in the model that case yields the junk value obtained by dividing
by zero). -/
def Vec3.normalize (v : Vec3) : Vec3 :=
  v / v.length

/-- Cross product, modelling `Vec3::cross`. -/
def Vec3.cross (a b : Vec3) : Vec3 :=
  ⟨a.y * b.z - a.z * b.y, a.z * b.x - a.x * b.z, a.x * b.y - a.y * b.x⟩

/-- Squared distance between two points, modelling `Vec3::distance_squared`. -/
def Vec3.distance_squared (a b : Vec3) : ℝ :=
  (a - b).length_squared

/-- Distance between two points, modelling `Vec3::distance`. -/
def Vec3.distance (a b : Vec3) : ℝ :=
  Real.sqrt (Vec3.distance_squared a b)

/-- A ray (origin plus direction), modelling `bevy_math::Ray3d`.
The direction is a `Dir3` in Rust; unit length is an explicit hypothesis
where a theorem needs it. -/
structure Ray where
  origin : Vec3
  direction : Vec3

/-- Linear RGB color triple, modelling `lux::LinearRgb`. -/
structure LinearRgb where
  red : ℝ
  green : ℝ
  blue : ℝ
deriving DecidableEq

/-- The constant `LinearRgb::BLACK`. -/
def LinearRgb.BLACK : LinearRgb := ⟨0, 0, 0⟩

/-- The constant `LinearRgb::WHITE`. -/
def LinearRgb.WHITE : LinearRgb := ⟨1, 1, 1⟩

instance addLinearRgb : Add LinearRgb :=
  ⟨fun a b => ⟨a.red + b.red, a.green + b.green, a.blue + b.blue⟩⟩

instance mulLinearRgb : Mul LinearRgb :=
  ⟨fun a b => ⟨a.red * b.red, a.green * b.green, a.blue * b.blue⟩⟩

instance mulLinearRgbReal : HMul LinearRgb ℝ LinearRgb :=
  ⟨fun a s => ⟨a.red * s, a.green * s, a.blue * s⟩⟩

instance mulRealLinearRgb : HMul ℝ LinearRgb LinearRgb :=
  ⟨fun s a => ⟨s * a.red, s * a.green, s * a.blue⟩⟩

instance divLinearRgbReal : HDiv LinearRgb ℝ LinearRgb :=
  ⟨fun a s => ⟨a.red / s, a.green / s, a.blue / s⟩⟩

/-- `<LinearRgb as Mix>::mix`: `self * (1 - factor) + other * factor`,
computed componentwise exactly as in the source. -/
def LinearRgb.mix (a b : LinearRgb) (factor : ℝ) : LinearRgb :=
  let n_factor := 1 - factor
  ⟨a.red * n_factor + b.red * factor,
   a.green * n_factor + b.green * factor,
   a.blue * n_factor + b.blue * factor⟩

/-- The material of a surface, modelling `lux::Material`. -/
inductive Material where
  | Diffuse (albedo : LinearRgb)
  | Reflective (albedo : LinearRgb) (reflectivity : ℝ)
  | Refractive (albedo : LinearRgb) (index : ℝ) (transparency : ℝ)
deriving DecidableEq

/-- A light source, modelling `lux::Light`. -/
inductive Light where
  | Ambient (color : LinearRgb) (intensity : ℝ)
  | Directional (direction : Vec3) (color : LinearRgb) (intensity : ℝ)
  | Point (position : Vec3) (color : LinearRgb) (intensity : ℝ)

/-- The result of a successful ray cast, modelling `lux::RayHit`. -/
structure RayHit where
  material : Material
  position : Vec3
  normal : Vec3
  distance : ℝ

/-- The camera, modelling `lux::Camera`. -/
structure Camera where
  translation : Vec3
  direction : Vec3
  up : Vec3
  fov : ℝ
  background : LinearRgb

/-- An abstract scene, modelling the `lux::Scene` trait: a list of lights
and a ray-cast operation taking a maximum distance.  The `f32` maximum
distance can be `f32::INFINITY` at the call sites in `lux`, so it is
modelled as `WithTop ℝ` with `⊤` standing for the infinite distance. -/
structure SceneT where
  lights : List Light
  cast : Ray → WithTop ℝ → Option RayHit

/-- The renderer state, modelling `lux::Renderer`. -/
structure Renderer where
  camera : Camera
  dim_x : ℕ
  dim_y : ℕ
  pixel_delta_u : Vec3
  pixel_delta_v : Vec3
  top_left_pixel : Vec3
  shadow_bias : ℝ
  max_recursion_depth : ℕ

/-- `Renderer::init`: derives the viewport basis and returns the renderer
with `shadow_bias = 0.001` and `max_recursion_depth = 10`. -/
def Renderer.init (camera : Camera) (dim_x dim_y : ℕ) : Renderer :=
  let focal_length : ℝ := 1
  let h := Real.tan (camera.fov / 2)
  let viewport_height := 2 * h * focal_length
  let viewport_width := viewport_height * ((dim_x : ℝ) / (dim_y : ℝ))
  let w := -camera.direction
  let u := (camera.up.cross w).normalize
  let v := w.cross u
  let viewport_u := viewport_width * u
  let viewport_v := viewport_height * (-v)
  let pixel_delta_u := viewport_u / (dim_x : ℝ)
  let pixel_delta_v := viewport_v / (dim_y : ℝ)
  let top_left_pixel :=
    camera.translation - focal_length * w - viewport_u / (2 : ℝ) - viewport_v / (2 : ℝ)
      + (0.5 : ℝ) * (pixel_delta_u + pixel_delta_v)
  ⟨camera, dim_x, dim_y, pixel_delta_u, pixel_delta_v, top_left_pixel, 0.001, 10⟩

/-- The free function `fresnel` from `crates/lux/src/lib.rs`, transcribed
verbatim: note that it sets `cos_i` to `cos_t.abs()`, the cosine of the
*refraction* angle. -/
def fresnel (direction normal : Vec3) (index : ℝ) : ℝ :=
  let dir_dot_n := direction.dot normal
  let eta_i := if dir_dot_n > 0 then index else 1
  let eta_t := if dir_dot_n > 0 then 1 else index
  let sin_t := eta_i / eta_t * Real.sqrt (max (1 - dir_dot_n * dir_dot_n) 0)
  if sin_t > 1 then 1
  else
    let cos_t := Real.sqrt (max (1 - sin_t * sin_t) 0)
    let cos_i := |cos_t|
    let r_s := (eta_t * cos_i - eta_i * cos_t) / (eta_t * cos_i + eta_i * cos_t)
    let r_p := (eta_i * cos_i - eta_t * cos_t) / (eta_i * cos_i + eta_t * cos_t)
    (r_s * r_s + r_p * r_p) / 2

/-- The standard dielectric Fresnel reflectance as described by the spec:
the average of the s- and p-polarization reflectances computed from the
cosine of the *incidence* angle (`cos_i = |dir ⬝ normal|`) and the cosine
of the refraction angle, with `ηi/ηt` swapped on exiting, and `1` on total
internal reflection.  This is the claim's reference formula, to be compared
with the source transcription `fresnel`. -/
def fresnelSpec (direction normal : Vec3) (index : ℝ) : ℝ :=
  let dir_dot_n := direction.dot normal
  let eta_i := if dir_dot_n > 0 then index else 1
  let eta_t := if dir_dot_n > 0 then 1 else index
  let sin_t := eta_i / eta_t * Real.sqrt (max (1 - dir_dot_n * dir_dot_n) 0)
  if sin_t > 1 then 1
  else
    let cos_t := Real.sqrt (max (1 - sin_t * sin_t) 0)
    let cos_i := |dir_dot_n|
    let r_s := (eta_t * cos_i - eta_i * cos_t) / (eta_t * cos_i + eta_i * cos_t)
    let r_p := (eta_i * cos_i - eta_t * cos_t) / (eta_i * cos_i + eta_t * cos_t)
    (r_s * r_s + r_p * r_p) / 2

/-- The value `k = 1 - η²·(1 - cosθi²)` computed inside
`Renderer::transmission_ray`, with the entering/exiting adjustment of
`n`, `eta_i`, `eta_t` and `i_dot_n` performed exactly as in the source. -/
def transmission_k (direction normal : Vec3) (index : ℝ) : ℝ :=
  let i_dot_n0 := direction.dot normal
  let eta_t := if i_dot_n0 < 0 then index else 1
  let eta_i := if i_dot_n0 < 0 then 1 else index
  let i_dot_n := if i_dot_n0 < 0 then -i_dot_n0 else i_dot_n0
  let eta := eta_i / eta_t
  1 - eta * eta * (1 - i_dot_n * i_dot_n)

/-- `Renderer::shadow_ray`. -/
def Renderer.shadow_ray (r : Renderer) (surface_position surface_normal dir_to_light : Vec3) :
    Ray :=
  ⟨surface_position + r.shadow_bias * (surface_normal + dir_to_light), dir_to_light⟩

/-- `Renderer::reflect_ray`. -/
def Renderer.reflect_ray (r : Renderer) (direction : Vec3) (hit : Vec3) (normal : Vec3) : Ray :=
  let direction2 := (direction - (2 * direction.dot normal) * normal).normalize
  ⟨hit + r.shadow_bias * (normal + direction2), direction2⟩

/-- `Renderer::transmission_ray`.  The square root argument `k` is the
value computed by `transmission_k`. -/
def Renderer.transmission_ray (r : Renderer) (direction : Vec3) (hit : Vec3) (normal : Vec3)
    (index : ℝ) : Ray :=
  let i_dot_n0 := direction.dot normal
  let n := if i_dot_n0 < 0 then normal else -normal
  let eta_t := if i_dot_n0 < 0 then index else 1
  let eta_i := if i_dot_n0 < 0 then 1 else index
  let i_dot_n := if i_dot_n0 < 0 then -i_dot_n0 else i_dot_n0
  let eta := eta_i / eta_t
  let k := 1 - eta * eta * (1 - i_dot_n * i_dot_n)
  let direction2 := ((direction + i_dot_n * n) * eta - n * Real.sqrt k).normalize
  ⟨hit + r.shadow_bias * (-n + direction2), direction2⟩

/-- `Renderer::shade_diffuse`: sums the contribution of every light, with
shadow tests for directional and point lights.  The `continue` on a shadow
hit becomes "add nothing" in the fold. -/
def Renderer.shade_diffuse (r : Renderer) (scene : SceneT) (albedo : LinearRgb)
    (surface_position surface_normal : Vec3) : LinearRgb :=
  scene.lights.foldl
    (fun result light =>
      match light with
      | .Ambient color intensity => result + albedo * color * intensity
      | .Directional direction color intensity =>
        let dir_to_light := -direction
        let sray := r.shadow_ray surface_position surface_normal dir_to_light
        match scene.cast sray ⊤ with
        | some _ => result
        | none =>
          let light_power := max (surface_normal.dot dir_to_light) 0 * intensity
          result + albedo * color * light_power / Real.pi
      | .Point position color intensity =>
        let dir_to_light := (position - surface_position).normalize
        let sray := r.shadow_ray surface_position surface_normal dir_to_light
        let distance_squared := Vec3.distance_squared position surface_position
        match scene.cast sray (↑(Real.sqrt distance_squared) : WithTop ℝ) with
        | some _ => result
        | none =>
          let light_intensity := intensity / (4 * Real.pi * distance_squared)
          let light_power := max (surface_normal.dot dir_to_light) 0 * light_intensity
          result + albedo * color * light_power / Real.pi)
    LinearRgb.BLACK

/-- `Renderer::cast_ray`: the recursive trace.  Recursion is on the depth
counter, bounded by `max_recursion_depth` exactly as in the source. -/
def Renderer.cast_ray (r : Renderer) (scene : SceneT) (ray : Ray) (depth : ℕ) : LinearRgb :=
  if _h : depth ≥ r.max_recursion_depth then r.camera.background
  else
    match scene.cast ray ⊤ with
    | none => r.camera.background
    | some surface =>
      match surface.material with
      | .Diffuse albedo => r.shade_diffuse scene albedo surface.position surface.normal
      | .Reflective albedo reflectivity =>
        let this_color := r.shade_diffuse scene albedo surface.position surface.normal
        let reflected :=
          r.cast_ray scene (r.reflect_ray ray.direction surface.position surface.normal)
            (depth + 1)
        LinearRgb.mix this_color reflected reflectivity
      | .Refractive albedo index transparency =>
        let kr := fresnel ray.direction surface.normal index
        let refracted :=
          if kr < 1 then
            r.cast_ray scene
              (r.transmission_ray ray.direction surface.position surface.normal index)
              (depth + 1)
          else LinearRgb.BLACK
        let reflected :=
          r.cast_ray scene (r.reflect_ray ray.direction surface.position surface.normal)
            (depth + 1)
        LinearRgb.mix (albedo * refracted * transparency) reflected kr
termination_by r.max_recursion_depth - depth
decreasing_by all_goals omega

end

/-- Block kinds of the voxel world, modelling `world::Block`. -/
inductive Block where
  | Air
  | Dirt
  | Stone
  | Sand
  | Grass
  | Wood
  | Leaves
  | Water
deriving DecidableEq

/-- The world is a cube of side `WORLD_SIZE = 15`. -/
def WORLD_SIZE : ℕ := 15

/-- `world::linearize`: bounds-checked flattening of a block coordinate. -/
def linearize (pos : IVec3) : Option ℕ :=
  if 0 ≤ pos.x ∧ pos.x < 15 ∧ 0 ≤ pos.y ∧ pos.y < 15 ∧ 0 ≤ pos.z ∧ pos.z < 15 then
    some (pos.x + pos.y * 15 + pos.z * 15 * 15).toNat
  else none

/-- The block grid, modelling `world::BloxScene`; the backing array
`Box<[Block; N³]>` is modelled as a total function on flat indices. -/
structure BloxScene where
  blocks : ℕ → Block

/-- `BloxScene::block`: bounds-checked lookup. -/
def BloxScene.block (s : BloxScene) (pos : IVec3) : Option Block :=
  (linearize pos).map s.blocks

/-- A voxel face, modelling `path_tracer::Face`. -/
inductive Face where
  | XNeg
  | XPos
  | YNeg
  | YPos
  | ZNeg
  | ZPos
deriving DecidableEq

/-- `Face::normal`: the outward unit normal of each face. -/
def Face.normal : Face → Vec3
  | .XNeg => ⟨-1, 0, 0⟩
  | .XPos => ⟨1, 0, 0⟩
  | .YNeg => ⟨0, -1, 0⟩
  | .YPos => ⟨0, 1, 0⟩
  | .ZNeg => ⟨0, 0, -1⟩
  | .ZPos => ⟨0, 0, 1⟩

noncomputable section

open scoped Classical

/-- Truncation toward zero, modelling Rust `f32::trunc`. -/
def rust_trunc (x : ℝ) : ℝ :=
  if 0 ≤ x then (⌊x⌋ : ℝ) else (⌈x⌉ : ℝ)

/-- Fractional part, modelling Rust `f32::fract` (`x - x.trunc()`). -/
def rust_fract (x : ℝ) : ℝ :=
  x - rust_trunc x

/-- One block texture, modelling `path_tracer::BlockTexture`; the texel
array holds linear colors (the Rust `LinearRgba` alpha channel plays no
role in shading and is dropped). -/
structure BlockTexture where
  size_x : ℕ
  size_y : ℕ
  data : ℕ → LinearRgb

/-- `BlockTexture::sample`: nearest-neighbor lookup at
`floor(uv.fract() * size)` clamped to `[0, size-1]`; the Rust `as u32`
cast of the clamped nonnegative float is truncation. -/
def BlockTexture.sample (t : BlockTexture) (uv : Vec2) : LinearRgb :=
  let fu := rust_fract uv.x
  let fv := rust_fract uv.y
  let u := min (max (fu * (t.size_x : ℝ)) 0) ((t.size_x : ℝ) - 1)
  let v := min (max (fv * (t.size_y : ℝ)) 0) ((t.size_y : ℝ) - 1)
  t.data ((⌊v⌋.toNat * t.size_x + ⌊u⌋.toNat))

/-- Stand-in for `LinearRgba::NAN`: `f32` NaN has no counterpart in `ℝ`,
so a fixed marker color takes its place.  The theorem for claim `C10`
shows the branch producing it is unreachable from the intersector, so no
modelled computation depends on this value. -/
def nan_albedo : LinearRgb := ⟨0, 0, 0⟩

/-- The per-block texture table, modelling `path_tracer::BlockTextures`
(the `Arc<[BlockTexture]>` modelled as a total function on indices). -/
structure BlockTextures where
  textures : ℕ → BlockTexture

/-- `BlockTextures::sample`: selects the texture by block kind (and face,
for grass) and samples it; `Air` yields the NaN albedo in Rust. -/
def BlockTextures.sample (bt : BlockTextures) (block : Block) (face : Face) (uv : Vec2) :
    Material :=
  Material.Diffuse
    (match block with
     | .Air => nan_albedo
     | .Dirt => (bt.textures 0).sample uv
     | .Stone => (bt.textures 1).sample uv
     | .Sand => (bt.textures 2).sample uv
     | .Grass =>
       match face with
       | .YPos => (bt.textures 4).sample uv
       | .YNeg => (bt.textures 0).sample uv
       | _ => (bt.textures 3).sample uv
     | .Wood => (bt.textures 5).sample uv
     | .Leaves => (bt.textures 6).sample uv
     | .Water => (bt.textures 7).sample uv)

/-- The helper `interval` inside `<LuxScene as lux::Scene>::cast_ray`:
the parameter interval in which the ray is inside the slab `[0, 15)` on
one axis.  The `f32` infinities returned for a zero-speed axis are
modelled by `EReal` endpoints. -/
def interval (start speed : ℝ) : Option (EReal × EReal) :=
  if (start < 0 ∧ speed ≤ 0) ∨ (start > 15 ∧ speed ≥ 0) then none
  else if speed = 0 then
    if 0 ≤ start ∧ start < 15 then some (⊥, ⊤) else none
  else
    let t1 := -start / speed
    let t2 := (15 - start) / speed
    let p := if t1 < t2 then (t1, t2) else (t2, t1)
    some ((max p.1 0 : ℝ), (p.2 : ℝ))

/-- The helper `clamp_origin`: returns the ray origin if it is already
inside the world, else advances it to the entry point of the world box
plus an epsilon of `0.001` per component.  `EReal.toReal` recovers the
finite entry parameter; the entry bound is infinite only when every
direction component is zero, impossible for the unit direction of a
`Ray3d`. -/
def clamp_origin (ray : Ray) : Option Vec3 :=
  if 0 ≤ ray.origin.x ∧ ray.origin.x < 15 ∧ 0 ≤ ray.origin.y ∧ ray.origin.y < 15 ∧
      0 ≤ ray.origin.z ∧ ray.origin.z < 15 then
    some ray.origin
  else
    match interval ray.origin.x ray.direction.x, interval ray.origin.y ray.direction.y,
        interval ray.origin.z ray.direction.z with
    | some ix, some iy, some iz =>
      let lo := max (max ix.1 iy.1) iz.1
      let hi := min (min ix.2 iy.2) iz.2
      if lo ≤ hi then
        some (ray.origin + lo.toReal * ray.direction + (⟨0.001, 0.001, 0.001⟩ : Vec3))
      else none
    | _, _, _ => none

/-- The helper `time_to_edge`: time until the ray crosses the next block
boundary on one axis, with the signed unit step; `none` models the `f32`
infinite time of a zero-speed axis. -/
def time_to_edge (pos : ℝ) (block : ℤ) (speed : ℝ) : Option ℝ × ℤ :=
  if speed > 0 then (some (((block : ℝ) + 1 - pos) / speed), 1)
  else if speed < 0 then (some (((block : ℝ) - pos) / speed), -1)
  else (none, 0)

/-- Strict comparison of optional times with `none` as `+∞`, mirroring
`partial_cmp` on `f32` times inside `min_by`. -/
def time_lt : Option ℝ → Option ℝ → Prop
  | some x, some y => x < y
  | some _, none => True
  | none, _ => False

/-- Componentwise cast `IVec3::as_vec3`. -/
def IVec3.as_vec3 (v : IVec3) : Vec3 :=
  ⟨(v.x : ℝ), (v.y : ℝ), (v.z : ℝ)⟩

/-- `Vec3::floor().as_ivec3()`. -/
def Vec3.floor_ivec (v : Vec3) : IVec3 :=
  ⟨⌊v.x⌋, ⌊v.y⌋, ⌊v.z⌋⟩

/-- Componentwise minimum, modelling `IVec3::min`. -/
instance minIVec3 : Min IVec3 :=
  ⟨fun a b => ⟨min a.x b.x, min a.y b.y, min a.z b.z⟩⟩

/-- The helper `face_and_uv`: picks the face whose boundary plane is
nearest to the hit position (`min_by` keeps the first of equally minimal
candidates, in the fixed order XNeg, XPos, YNeg, YPos, ZNeg, ZPos) and
computes the face-local UV. -/
def face_and_uv (pos : Vec3) (block : IVec3) : Face × Vec2 :=
  let rel := pos - block.as_vec3
  let c1 : Face × ℝ := (Face.XNeg, |rel.x|)
  let rest : List (Face × ℝ) :=
    [(Face.XPos, |1 - rel.x|), (Face.YNeg, |rel.y|), (Face.YPos, |1 - rel.y|),
     (Face.ZNeg, |rel.z|), (Face.ZPos, |1 - rel.z|)]
  let face := (rest.foldl (fun acc c => if c.2 < acc.2 then c else acc) c1).1
  let uv : Vec2 :=
    match face with
    | .XNeg => ⟨1 - rel.z, 1 - rel.y⟩
    | .XPos => ⟨rel.z, 1 - rel.y⟩
    | .YNeg => ⟨rel.x, rel.z⟩
    | .YPos => ⟨rel.x, 1 - rel.z⟩
    | .ZNeg => ⟨1 - rel.x, 1 - rel.y⟩
    | .ZPos => ⟨rel.x, 1 - rel.y⟩
  (face, uv)

/-- The "find next edge over all 3 axes" step of the traversal loop:
`min_by` over the per-axis `(time, delta)` candidates in axis order
X, Y, Z, keeping the first of equally minimal times.  The result is the
chosen time and the signed unit block step; `none` (every axis has zero
speed, so every time is the `f32` infinity and Rust would advance by an
infinite amount) is unreachable for a unit ray direction. -/
def next_step (pos : Vec3) (block : IVec3) (dir : Vec3) : Option (ℝ × IVec3) :=
  let cx := time_to_edge pos.x block.x dir.x
  let cy := time_to_edge pos.y block.y dir.y
  let cz := time_to_edge pos.z block.z dir.z
  let c1 : Option ℝ × IVec3 := (cx.1, ⟨cx.2, 0, 0⟩)
  let c2 : Option ℝ × IVec3 := (cy.1, ⟨0, cy.2, 0⟩)
  let c3 : Option ℝ × IVec3 := (cz.1, ⟨0, 0, cz.2⟩)
  let m12 := if time_lt c2.1 c1.1 then c2 else c1
  let m := if time_lt c3.1 m12.1 then c3 else m12
  match m.1 with
  | some t => some (t, m.2)
  | none => none

/-- The scene implementation, modelling `path_tracer::LuxScene`. -/
structure LuxScene where
  scene : BloxScene
  textures : BlockTextures

/-- The body of the DDA traversal `loop` in
`<LuxScene as lux::Scene>::cast_ray`, with an explicit fuel argument
standing for the unbounded Rust `loop` (exhausted fuel yields `none`;
theorems quantify over the fuel).  Each iteration looks up the current
block (`none` once the coordinate leaves the grid), returns a hit on a
non-air block whose nearest face passes the back-face test
`normal ⬝ dir < 0`, and otherwise advances to the next cell boundary. -/
def lux_cast_loop (s : LuxScene) (dir : Vec3) :
    ℕ → Vec3 → IVec3 → ℝ → Option RayHit
  | 0, _, _, _ => none
  | fuel + 1, pos, block, dist =>
    match s.scene.block block with
    | none => none
    | some b =>
      let hit? : Option RayHit :=
        if b ≠ Block.Air then
          let fu := face_and_uv pos block
          let normal := fu.1.normal
          if normal.dot dir < 0 then
            some ⟨s.textures.sample b fu.1 fu.2, pos, normal, dist⟩
          else none
        else none
      match hit? with
      | some hit => some hit
      | none =>
        match next_step pos block dir with
        | some td => lux_cast_loop s dir fuel (pos + dir * td.1) (block + td.2) (dist + td.1)
        | none => none

/-- `<LuxScene as lux::Scene>::cast_ray`: clamps the origin into the
world box, derives the starting block coordinate (floored, clamped above
by `WORLD_SIZE - 1` per axis) and the distance already travelled, then
runs the traversal loop.  Note that the Rust implementation takes no
`max_distance` parameter even though the `lux::Scene` trait it
implements declares one; nothing in the function bounds the distance of
the returned hit. -/
def LuxScene.cast_ray (s : LuxScene) (fuel : ℕ) (ray : Ray) : Option RayHit :=
  match clamp_origin ray with
  | none => none
  | some pos0 =>
    let block0 := min pos0.floor_ivec (⟨14, 14, 14⟩ : IVec3)
    let dist0 := Vec3.distance ray.origin pos0
    lux_cast_loop s ray.direction fuel pos0 block0 dist0

end

/-- Chunk lengths produced by Rust `slice::chunks_mut(size)` on a slice
of length `len`: chunks of exactly `size` elements, except that a final
chunk holds the remainder.  The `size = 0` case (where Rust panics) is
never taken by callers, which check for it separately. -/
def chunk_lens : ℕ → ℕ → List ℕ
  | _, 0 => []
  | len, size + 1 =>
    if len = 0 then []
    else if len ≤ size + 1 then [len]
    else (size + 1) :: chunk_lens (len - (size + 1)) (size + 1)
termination_by len _ => len
decreasing_by omega

/-- Model of `Renderer::render_into` for a `w × h` image and `t` worker
threads (`t` models `thread::available_parallelism` with its fallback to
1): the flat pixel range of length `w * h` is split by
`chunks_mut(chunk_size)` with `chunk_size = (w * h) / t`, and the worker
of chunk `chunk_index` writes, for each offset `i` inside its chunk, the
pixel value `f x y` at flat index `index = chunk_index * chunk_size + i`
where `x = index % w` and `y = index / w`.  `f` stands for
`render_pixel` of a fixed scene.  The result is the ordered list of
(index, value) writes; `none` models the `chunks_mut` panic on
`chunk_size = 0`. -/
def render_into_writes {α : Type} (w h t : ℕ) (f : ℕ → ℕ → α) : Option (List (ℕ × α)) :=
  let len := w * h
  let chunk_size := len / t
  if chunk_size = 0 then none
  else
    some (((chunk_lens len chunk_size).enum).flatMap
      (fun c =>
        (List.range c.2).map (fun i =>
          let index := c.1 * chunk_size + i
          (index, f (index % w) (index / w)))))


noncomputable section

/-- A fixed small renderer (max recursion depth 10, shadow bias 0.001)
used to instantiate theorems with hypotheses at concrete inputs. -/
def R0 : Renderer :=
  ⟨⟨⟨0, 0, 0⟩, ⟨0, 0, 1⟩, ⟨0, 1, 0⟩, 1, ⟨0, 0, 0⟩⟩, 1, 1,
    ⟨0, 0, 0⟩, ⟨0, 0, 0⟩, ⟨0, 0, 0⟩, 1 / 1000, 10⟩

/-- A fully reflective hit (reflectivity 1). -/
def mirror_hit : RayHit := ⟨Material.Reflective LinearRgb.WHITE 1, ⟨0, 0, 0⟩, ⟨0, 1, 0⟩, 1⟩

/-- A scene in which every ray hits a perfect mirror. -/
def mirror_scene : SceneT := ⟨[], fun _ _ => some mirror_hit⟩

/-- A reflective hit with reflectivity 0. -/
def refl0_hit : RayHit := ⟨Material.Reflective LinearRgb.WHITE 0, ⟨0, 0, 0⟩, ⟨0, 1, 0⟩, 1⟩

/-- The same hit with a diffuse material of the same albedo. -/
def diff_hit : RayHit := ⟨Material.Diffuse LinearRgb.WHITE, ⟨0, 0, 0⟩, ⟨0, 1, 0⟩, 1⟩

/-- A scene in which every ray hits `refl0_hit`. -/
def refl0_scene : SceneT := ⟨[], fun _ _ => some refl0_hit⟩

/-- A scene in which every ray hits `diff_hit`. -/
def diff_scene : SceneT := ⟨[], fun _ _ => some diff_hit⟩

/-- A fixed test ray. -/
def ray0 : Ray := ⟨⟨0, 0, 0⟩, ⟨0, 0, 1⟩⟩

end

noncomputable section

/-- Concrete grid for the max-distance counterexample: the only non-air
block is Stone at flat index 3 = linearize (3,0,0). -/
def scene4 : BloxScene := ⟨fun i => if i = 3 then Block.Stone else Block.Air⟩

/-- Concrete texture table: every slot is a 1×1 white texture. -/
def tex4 : BlockTextures := ⟨fun _ => ⟨1, 1, fun _ => LinearRgb.WHITE⟩⟩

/-- Concrete intersector scene over `scene4` and `tex4`. -/
def lux_scene4 : LuxScene := ⟨scene4, tex4⟩

/-- Concrete ray: origin (1/2,1/2,1/2) inside the world, unit direction
+X; it first meets the stone block at (3,0,0) at distance 5/2. -/
def ray4 : Ray := ⟨⟨1/2, 1/2, 1/2⟩, ⟨1, 0, 0⟩⟩

end

/-- Unfolding lemma for `LinearRgb` addition. -/
theorem add_rgb (a b : LinearRgb) :
    a + b = ⟨a.red + b.red, a.green + b.green, a.blue + b.blue⟩ := rfl

/-- Unfolding lemma for componentwise `LinearRgb` multiplication. -/
theorem mul_rgb (a b : LinearRgb) :
    a * b = ⟨a.red * b.red, a.green * b.green, a.blue * b.blue⟩ := rfl

/-- Unfolding lemma for `LinearRgb * f32` scaling. -/
theorem mul_rgb_real (a : LinearRgb) (s : ℝ) :
    a * s = ⟨a.red * s, a.green * s, a.blue * s⟩ := rfl

/-- Unfolding lemma for `f32 * LinearRgb` scaling. -/
theorem mul_real_rgb (s : ℝ) (a : LinearRgb) :
    s * a = ⟨s * a.red, s * a.green, s * a.blue⟩ := rfl

/-- Unfolding lemma for `LinearRgb / f32`. -/
theorem div_rgb_real (a : LinearRgb) (s : ℝ) :
    a / s = ⟨a.red / s, a.green / s, a.blue / s⟩ := rfl

/-- Unfolding lemma for `Vec3` addition. -/
theorem add_vec (a b : Vec3) : a + b = ⟨a.x + b.x, a.y + b.y, a.z + b.z⟩ := rfl

/-- Unfolding lemma for `Vec3` subtraction. -/
theorem sub_vec (a b : Vec3) : a - b = ⟨a.x - b.x, a.y - b.y, a.z - b.z⟩ := rfl

/-- Unfolding lemma for `Vec3` negation. -/
theorem neg_vec (a : Vec3) : -a = (⟨-a.x, -a.y, -a.z⟩ : Vec3) := rfl

/-- Unfolding lemma for `f32 * Vec3` scaling. -/
theorem smul_vec (s : ℝ) (a : Vec3) : s * a = (⟨s * a.x, s * a.y, s * a.z⟩ : Vec3) := rfl

/-- Unfolding lemma for `Vec3 * f32` scaling. -/
theorem mul_vec_real (a : Vec3) (s : ℝ) : a * s = (⟨a.x * s, a.y * s, a.z * s⟩ : Vec3) := rfl

/-- Unfolding lemma for `Vec3 / f32`. -/
theorem div_vec_real (a : Vec3) (s : ℝ) : a / s = (⟨a.x / s, a.y / s, a.z / s⟩ : Vec3) := rfl

/-- Unfolding lemma for `IVec3` addition. -/
theorem add_ivec (a b : IVec3) : a + b = ⟨a.x + b.x, a.y + b.y, a.z + b.z⟩ := rfl

/-- Unfolding lemma for componentwise `IVec3` minimum. -/
theorem min_ivec (a b : IVec3) :
    min a b = (⟨min a.x b.x, min a.y b.y, min a.z b.z⟩ : IVec3) := rfl

/-- Helper: evaluate a square root of a perfect rational square. -/
theorem sqrt_eval {a b : ℝ} (hb : 0 ≤ b) (h : b ^ 2 = a) : Real.sqrt a = b := by
  rw [← h]
  exact Real.sqrt_sq hb

/-- C8: `mix(a,b,0) = a`, `mix(a,b,1) = b`, and for every factor `t`
(also outside `[0,1]`) `mix(a,b,t)` is the componentwise affine
combination `a·(1−t) + b·t` (stated with the scalar multiplication and
addition of `LinearRgb` as implemented in the source). -/
theorem C8_mix_affine (a b : LinearRgb) (t : ℝ) :
    LinearRgb.mix a b 0 = a ∧ LinearRgb.mix a b 1 = b ∧
      LinearRgb.mix a b t = a * (1 - t) + b * t := by
  refine ⟨?_, ?_, ?_⟩ <;>
    · cases a
      cases b
      simp only [LinearRgb.mix, mul_rgb_real, add_rgb, LinearRgb.mk.injEq]
      try refine ⟨?_, ?_, ?_⟩
      all_goals ring

/-- C1: the claim says `fresnel` computes the standard dielectric Fresnel
reflectance (average of the s- and p-polarization reflectances, a
function of the cosine of the incidence angle).  The code instead sets
`cos_i = cos_t.abs()`, the cosine of the *refraction* angle: at incident
direction `(4/5, −3/5, 0)` against normal `(0, 1, 0)` with index `4/3`
the code yields `1/49`, while the standard formula (`fresnelSpec`)
yields `49/1250`, so the code diverges from the claimed formula. -/
theorem C1_fresnel_failing_input :
    fresnel ⟨4/5, -(3/5), 0⟩ ⟨0, 1, 0⟩ (4/3) = 1/49 ∧
      fresnelSpec ⟨4/5, -(3/5), 0⟩ ⟨0, 1, 0⟩ (4/3) = 49/1250 ∧
      (1/49 : ℝ) ≠ 49/1250 := by
  refine ⟨?_, ?_, by norm_num⟩
  · unfold fresnel
    norm_num [Vec3.dot, show Real.sqrt 16 = 4 from sqrt_eval (by norm_num) (by norm_num),
      show Real.sqrt 25 = 5 from sqrt_eval (by norm_num) (by norm_num),
      show |(4:ℝ)/5| = 4/5 from abs_of_nonneg (by norm_num)]
  · unfold fresnelSpec
    norm_num [Vec3.dot, show Real.sqrt 16 = 4 from sqrt_eval (by norm_num) (by norm_num),
      show Real.sqrt 25 = 5 from sqrt_eval (by norm_num) (by norm_num),
      abs_neg, show |(3:ℝ)/5| = 3/5 from abs_of_nonneg (by norm_num)]

/-- Helper: the dot product of two unit vectors has square at most one
(Cauchy–Schwarz via the Lagrange identity). -/
theorem dot_sq_le_one (a b : Vec3) (ha : a.length = 1) (hb : b.length = 1) :
    a.dot b * a.dot b ≤ 1 := by
  unfold Vec3.length at ha hb
  have ha' : a.length_squared = 1 := Real.sqrt_eq_one.mp ha
  have hb' : b.length_squared = 1 := Real.sqrt_eq_one.mp hb
  unfold Vec3.length_squared at ha' hb'
  unfold Vec3.dot
  nlinarith [sq_nonneg (a.x * b.y - a.y * b.x), sq_nonneg (a.x * b.z - a.z * b.x),
    sq_nonneg (a.y * b.z - a.z * b.y)]

/-- C2 counterexample: at the grazing direction `(1,0,0)` against normal
`(0,1,0)` with index `2`, the call-site precondition holds
(`fresnel = 1/9 < 1`) yet the value `k` computed in `transmission_ray`
is `−3 < 0`, so the transmitted branch is not skipped and the square
root receives a negative argument: `fresnel` swaps the indices on
`dot > 0` while `transmission_ray` swaps on `dot ≥ 0`, and the two
disagree at `dot = 0`. -/
theorem C2_counterexample :
    fresnel ⟨1, 0, 0⟩ ⟨0, 1, 0⟩ 2 < 1 ∧ transmission_k ⟨1, 0, 0⟩ ⟨0, 1, 0⟩ 2 < 0 := by
  constructor
  · unfold fresnel
    norm_num [Vec3.dot, Real.sqrt_one,
      show Real.sqrt 4 = 2 from sqrt_eval (by norm_num) (by norm_num)]
    have hc : (0:ℝ) < Real.sqrt 3 := Real.sqrt_pos.mpr (by norm_num)
    have habs : |Real.sqrt 3 / 2| = Real.sqrt 3 / 2 := abs_of_nonneg (by positivity)
    rw [habs]
    set c := Real.sqrt 3 with hcdef
    have h0 : (c/2) / (3 * (c/2)) = 1/3 := by
      rw [div_eq_div_iff (by positivity) (by norm_num)]
      ring
    have h1 : (2 * (c/2) - c/2) / (2 * (c/2) + c/2) = 1/3 := by
      rw [show 2 * (c/2) - c/2 = c/2 by ring, show 2 * (c/2) + c/2 = 3 * (c/2) by ring, h0]
    have h2 : (c/2 - 2 * (c/2)) / (c/2 + 2 * (c/2)) = -(1/3) := by
      rw [show c/2 - 2 * (c/2) = -(c/2) by ring, show c/2 + 2 * (c/2) = 3 * (c/2) by ring,
        neg_div, h0]
    rw [h1, h2]
    norm_num
  · unfold transmission_k
    norm_num [Vec3.dot]

/-- C2 (amended): for unit incident direction and unit normal with
`dot(dir, normal) ≠ 0` and positive index, whenever the call-site
precondition `fresnel(dir, normal, index) < 1` holds, the value
`k = 1 − η²(1 − cosθi²)` computed in `transmission_ray` is nonnegative,
so the square root receives a nonnegative argument.  (The claim as
stated, without the `dot ≠ 0` proviso, fails: see the counterexample.) -/
theorem C2_fresnel_lt_one_implies_k_nonneg (dir n : Vec3) (index : ℝ)
    (hdir : dir.length = 1) (hn : n.length = 1) (hidx : 0 < index)
    (hdot : dir.dot n ≠ 0) (hfr : fresnel dir n index < 1) :
    0 ≤ transmission_k dir n index := by
  have hsq : dir.dot n * dir.dot n ≤ 1 := dot_sq_le_one dir n hdir hn
  have hmax : max (1 - dir.dot n * dir.dot n) 0 = 1 - dir.dot n * dir.dot n :=
    max_eq_left (by nlinarith)
  simp only [fresnel] at hfr
  simp only [transmission_k]
  set d := dir.dot n with hd
  set s := Real.sqrt (max (1 - d * d) 0) with hs
  have hs0 : 0 ≤ s := Real.sqrt_nonneg _
  have hssq : s * s = 1 - d * d := by
    rw [hs, hmax]
    exact Real.mul_self_sqrt (by nlinarith)
  rcases lt_or_gt_of_ne hdot with hneg | hpos
  · have hngt : ¬ d > 0 := asymm hneg
    rw [if_neg hngt, if_neg hngt] at hfr
    rw [if_pos hneg, if_pos hneg, if_pos hneg]
    by_cases hcase : 1 / index * s > 1
    · rw [if_pos hcase] at hfr
      exact absurd hfr (lt_irrefl 1)
    · push_neg at hcase
      have hx : 0 ≤ 1 / index * s := by positivity
      have hm : (1 / index * s) * (1 / index * s) ≤ 1 := by nlinarith [hx, hcase]
      nlinarith [hm, hssq]
  · have hnlt : ¬ d < 0 := asymm hpos
    rw [if_pos hpos, if_pos hpos] at hfr
    rw [if_neg hnlt, if_neg hnlt, if_neg hnlt]
    by_cases hcase : index / 1 * s > 1
    · rw [if_pos hcase] at hfr
      exact absurd hfr (lt_irrefl 1)
    · push_neg at hcase
      have hx : 0 ≤ index / 1 * s := by positivity
      have hm : (index / 1 * s) * (index / 1 * s) ≤ 1 := by nlinarith [hx, hcase]
      nlinarith [hm, hssq]

/-- C2 witness: the amended theorem applied at direction `(0,−1,0)`,
normal `(0,1,0)`, index `2`. -/
theorem C2_fresnel_lt_one_implies_k_nonneg_witness :
    0 ≤ transmission_k ⟨0, -1, 0⟩ ⟨0, 1, 0⟩ 2 :=
  C2_fresnel_lt_one_implies_k_nonneg ⟨0, -1, 0⟩ ⟨0, 1, 0⟩ 2
    (by unfold Vec3.length Vec3.length_squared; norm_num [Real.sqrt_one])
    (by unfold Vec3.length Vec3.length_squared; norm_num [Real.sqrt_one])
    (by norm_num)
    (by unfold Vec3.dot; norm_num)
    (by unfold fresnel; norm_num [Vec3.dot, Real.sqrt_zero, Real.sqrt_one])

/-- C9: for any renderer, a white Diffuse surface point at the origin
with normal `(0,1,0)`, lit only by an unoccluded point light at
`(0,5,0)` with white color and intensity `4π`, shades to exactly
`1/(25π)` per channel: `intensity/(4π·25) · max(dot(normal,dirToLight),0) / π`. -/
theorem C9_point_light_scenario (r : Renderer) :
    r.shade_diffuse ⟨[Light.Point ⟨0, 5, 0⟩ LinearRgb.WHITE (4 * Real.pi)], fun _ _ => none⟩
      LinearRgb.WHITE ⟨0, 0, 0⟩ ⟨0, 1, 0⟩ =
      ⟨1 / (25 * Real.pi), 1 / (25 * Real.pi), 1 / (25 * Real.pi)⟩ := by
  have h25 : Real.sqrt 25 = 5 := sqrt_eval (by norm_num) (by norm_num)
  simp only [Renderer.shade_diffuse, List.foldl, Vec3.normalize, Vec3.length,
    Vec3.length_squared, Vec3.distance_squared, sub_vec, Vec3.dot, div_vec_real,
    add_rgb, mul_rgb, mul_rgb_real, div_rgb_real, LinearRgb.BLACK, LinearRgb.WHITE]
  norm_num [h25]
  have hpi : Real.pi ≠ 0 := Real.pi_ne_zero
  field_simp
  ring

/-- Helper: `mix(a, b, 1) = b`. -/
theorem mix_one (a b : LinearRgb) : LinearRgb.mix a b 1 = b := by
  cases a
  cases b
  simp only [LinearRgb.mix, LinearRgb.mk.injEq]
  refine ⟨by ring, by ring, by ring⟩

/-- Helper: `mix(a, b, 0) = a`. -/
theorem mix_zero (a b : LinearRgb) : LinearRgb.mix a b 0 = a := by
  cases a
  cases b
  simp only [LinearRgb.mix, LinearRgb.mk.injEq]
  refine ⟨by ring, by ring, by ring⟩

/-- Helper: at depth at least the recursion bound, the trace returns the
background immediately. -/
theorem cast_ray_base (r : Renderer) (scene : SceneT) (ray : Ray) (depth : ℕ)
    (h : r.max_recursion_depth ≤ depth) :
    r.cast_ray scene ray depth = r.camera.background := by
  unfold Renderer.cast_ray
  rw [dif_pos h]

/-- Helper: in a scene whose every hit is a perfect mirror
(reflectivity 1), the trace returns the background at every depth. -/
theorem mirror_background (r : Renderer) (scene : SceneT)
    (hm : ∀ rr dd hit, scene.cast rr dd = some hit →
      ∃ a, hit.material = Material.Reflective a 1) :
    ∀ n depth ray, r.max_recursion_depth - depth ≤ n →
      r.cast_ray scene ray depth = r.camera.background := by
  intro n
  induction n with
  | zero =>
    intro depth ray hn
    exact cast_ray_base r scene ray depth (by omega)
  | succ n ih =>
    intro depth ray hn
    by_cases hd : r.max_recursion_depth ≤ depth
    · exact cast_ray_base r scene ray depth hd
    · unfold Renderer.cast_ray
      rw [dif_neg (by omega)]
      rcases hcast : scene.cast ray ⊤ with _ | hit
      · rfl
      · obtain ⟨a, ha⟩ := hm ray ⊤ hit hcast
        obtain ⟨mat, pos, nrm, dist⟩ := hit
        simp only at ha
        subst ha
        dsimp only
        rw [ih (depth + 1) _ (by omega), mix_one]

/-- C6: the recursive trace is depth-bounded: at depth at least
`max_recursion_depth` it returns the background color immediately, and
for a scene of mutually facing mirrors (every successful cast yields a
fully reflective hit) the trace at any starting depth terminates with
the background color instead of recursing forever. -/
theorem C6_trace_terminates (r : Renderer) (scene : SceneT) (ray : Ray) (depth : ℕ) :
    (r.max_recursion_depth ≤ depth → r.cast_ray scene ray depth = r.camera.background) ∧
    ((∀ rr dd hit, scene.cast rr dd = some hit →
        ∃ a, hit.material = Material.Reflective a 1) →
      r.cast_ray scene ray depth = r.camera.background) := by
  constructor
  · exact cast_ray_base r scene ray depth
  · intro hm
    exact mirror_background r scene hm (r.max_recursion_depth - depth) depth ray le_rfl

/-- C6 witness: the bounded-recursion theorem applied to the concrete
mirror scene at depths 10 and 0. -/
theorem C6_trace_terminates_witness :
    Renderer.cast_ray R0 mirror_scene ray0 10 = R0.camera.background ∧
      Renderer.cast_ray R0 mirror_scene ray0 0 = R0.camera.background :=
  ⟨(C6_trace_terminates R0 mirror_scene ray0 10).1 (by norm_num [R0]),
   (C6_trace_terminates R0 mirror_scene ray0 0).2 (fun rr dd hit h =>
     ⟨LinearRgb.WHITE, by
       obtain rfl : mirror_hit = hit := Option.some.inj h
       rfl⟩)⟩

/-- Helper: `shade_diffuse` depends on the scene only through its light
list and through whether each shadow cast hits something. -/
theorem shade_diffuse_congr (r : Renderer) (s1 s2 : SceneT)
    (hl : s1.lights = s2.lights)
    (hc : ∀ rr dd, (s1.cast rr dd).isSome = (s2.cast rr dd).isSome)
    (albedo : LinearRgb) (pos n : Vec3) :
    r.shade_diffuse s1 albedo pos n = r.shade_diffuse s2 albedo pos n := by
  unfold Renderer.shade_diffuse
  rw [← hl]
  apply List.foldl_ext
  intro acc light _
  cases light with
  | Ambient color intensity => rfl
  | Directional direction color intensity =>
    have h := hc (r.shadow_ray pos n (-direction)) ⊤
    rcases h1 : s1.cast (r.shadow_ray pos n (-direction)) ⊤ with _ | v <;>
      rcases h2 : s2.cast (r.shadow_ray pos n (-direction)) ⊤ with _ | w <;>
        rw [h1, h2] at h <;> simp_all
  | Point position color intensity =>
    have h := hc (r.shadow_ray pos n ((position - pos).normalize))
      (↑(Real.sqrt (Vec3.distance_squared position pos)) : WithTop ℝ)
    rcases h1 : s1.cast (r.shadow_ray pos n ((position - pos).normalize))
        (↑(Real.sqrt (Vec3.distance_squared position pos)) : WithTop ℝ) with _ | v <;>
      rcases h2 : s2.cast (r.shadow_ray pos n ((position - pos).normalize))
          (↑(Real.sqrt (Vec3.distance_squared position pos)) : WithTop ℝ) with _ | w <;>
        rw [h1, h2] at h <;> simp_all

/-- C7: tracing a hit with material `Reflective{albedo, 0}` gives the
same color as tracing the same hit with `Diffuse{albedo}` (in scenes
agreeing on lights and on shadow-cast success), and tracing a hit with
`Reflective{albedo, 1}` gives exactly the recursively traced reflected
color, ignoring the local diffuse term. -/
theorem C7_reflectivity_extremes (r : Renderer) (ray : Ray) (depth : ℕ) (a : LinearRgb)
    (hdepth : depth < r.max_recursion_depth) :
    (∀ (s1 s2 : SceneT) (h1 h2 : RayHit),
      s1.lights = s2.lights →
      (∀ rr dd, (s1.cast rr dd).isSome = (s2.cast rr dd).isSome) →
      s1.cast ray ⊤ = some h1 → h1.material = Material.Reflective a 0 →
      s2.cast ray ⊤ = some h2 → h2.position = h1.position → h2.normal = h1.normal →
      h2.material = Material.Diffuse a →
      r.cast_ray s1 ray depth = r.cast_ray s2 ray depth) ∧
    (∀ (s : SceneT) (h1 : RayHit),
      s.cast ray ⊤ = some h1 → h1.material = Material.Reflective a 1 →
      r.cast_ray s ray depth =
        r.cast_ray s (r.reflect_ray ray.direction h1.position h1.normal) (depth + 1)) := by
  constructor
  · intro s1 s2 h1 h2 hl hc hcast1 hmat1 hcast2 hp hn hmat2
    unfold Renderer.cast_ray
    rw [dif_neg (by omega), dif_neg (by omega), hcast1, hcast2]
    obtain ⟨m1, p1, n1, d1⟩ := h1
    obtain ⟨m2, p2, n2, d2⟩ := h2
    simp only at hmat1 hmat2 hp hn
    subst hmat1 hmat2 hp hn
    dsimp only
    rw [mix_zero]
    exact shade_diffuse_congr r s1 s2 hl hc a _ _
  · intro s h1 hcast hmat
    conv_lhs => rw [Renderer.cast_ray.eq_def]
    rw [dif_neg (by omega), hcast]
    obtain ⟨m1, p1, n1, d1⟩ := h1
    simp only at hmat
    subst hmat
    dsimp only
    rw [mix_one]

/-- C7 witness: the theorem applied to the concrete constant scenes
`refl0_scene`/`diff_scene` (reflectivity 0 versus diffuse) and
`mirror_scene` (reflectivity 1) at depth 0. -/
theorem C7_reflectivity_extremes_witness :
    Renderer.cast_ray R0 refl0_scene ray0 0 = Renderer.cast_ray R0 diff_scene ray0 0 ∧
      Renderer.cast_ray R0 mirror_scene ray0 0 =
        Renderer.cast_ray R0 mirror_scene
          (R0.reflect_ray ray0.direction mirror_hit.position mirror_hit.normal) 1 :=
  ⟨(C7_reflectivity_extremes R0 ray0 0 LinearRgb.WHITE (by norm_num [R0])).1
      refl0_scene diff_scene refl0_hit diff_hit rfl (fun _ _ => rfl) rfl rfl rfl rfl rfl rfl,
   (C7_reflectivity_extremes R0 ray0 0 LinearRgb.WHITE (by norm_num [R0])).2
      mirror_scene mirror_hit rfl rfl⟩

/-- C3 counterexample: with a 5×2 image (10 pixels) and hardware
parallelism 3, `chunk_size = 10 / 3 = 3` and `chunks_mut` produces 4
chunks (3,3,3,1), not 3: the remainder becomes an extra final chunk
instead of being folded into the last chunk, so the chunk count does not
equal the available parallelism. -/
theorem C3_counterexample :
    (chunk_lens (5 * 2) ((5 * 2) / 3)).length = 4 ∧ (4 : ℕ) ≠ 3 := by
  have h3 : (5 * 2 : ℕ) / 3 = 2 + 1 := by norm_num
  rw [h3, chunk_lens, if_neg (by norm_num), if_neg (by norm_num),
    show (5 * 2 - (2 + 1) : ℕ) = 7 from by norm_num,
    chunk_lens, if_neg (by norm_num), if_neg (by norm_num),
    show (7 - (2 + 1) : ℕ) = 4 from by norm_num,
    chunk_lens, if_neg (by norm_num), if_neg (by norm_num),
    show (4 - (2 + 1) : ℕ) = 1 from by norm_num,
    chunk_lens, if_neg (by norm_num), if_pos (by norm_num)]
  simp

/-- Helper: shifting `List.range` under a map produces a map over
`List.range'`. -/
theorem range_map_shift {α : Type} (g : ℕ → α) (s n : ℕ) :
    (List.range n).map (fun i => g (s + i)) = (List.range' s n).map g := by
  have h : List.range' s n = (List.range' 0 n).map (fun x => s + x) := by
    rw [List.map_add_range']
    simp
  rw [h, List.map_map, ← List.range_eq_range']
  rfl

/-- Helper: the writes generated from the chunk list starting at chunk
index `k` cover exactly the flat indices `k·size, …, k·size + len − 1`,
in order, each with the pixel value recovered from its flat index. -/
theorem chunk_writes {α : Type} (w : ℕ) (f : ℕ → ℕ → α) (s : ℕ) :
    ∀ len k, ((chunk_lens len (s + 1)).enumFrom k).flatMap
        (fun c => (List.range c.2).map (fun i =>
          ((c.1 * (s + 1) + i), f ((c.1 * (s + 1) + i) % w) ((c.1 * (s + 1) + i) / w)))) =
      (List.range' (k * (s + 1)) len).map (fun i => (i, f (i % w) (i / w))) := by
  intro len
  induction len using Nat.strong_induction_on with
  | _ len ih =>
    intro k
    by_cases h0 : len = 0
    · subst h0
      simp [chunk_lens]
    · by_cases h1 : len ≤ s + 1
      · rw [chunk_lens, if_neg h0, if_pos h1]
        simp only [List.enumFrom_cons, List.enumFrom_nil, List.flatMap_cons,
          List.flatMap_nil, List.append_nil]
        exact range_map_shift (fun i => (i, f (i % w) (i / w))) (k * (s + 1)) len
      · rw [chunk_lens, if_neg h0, if_neg h1]
        simp only [List.enumFrom_cons, List.flatMap_cons]
        rw [ih (len - (s + 1)) (by omega) (k + 1)]
        rw [range_map_shift (fun i => (i, f (i % w) (i / w))) (k * (s + 1)) (s + 1)]
        rw [show (k + 1) * (s + 1) = k * (s + 1) + 1 * (s + 1) by ring]
        rw [← List.map_append, List.range'_append]
        have hlen : len - (s + 1) + (s + 1) = len := by omega
        rw [hlen]

/-- Helper: the number of chunks `chunks_mut(size)` produces on a slice
of length `len` is `⌈len / size⌉ = (len + size − 1) / size`. -/
theorem chunk_lens_length (s : ℕ) :
    ∀ len, (chunk_lens len (s + 1)).length = (len + (s + 1) - 1) / (s + 1) := by
  intro len
  induction len using Nat.strong_induction_on with
  | _ len ih =>
    by_cases h0 : len = 0
    · subst h0
      rw [chunk_lens, if_pos rfl]
      rw [show 0 + (s + 1) - 1 = s by omega, Nat.div_eq_of_lt (by omega)]
      rfl
    · by_cases h1 : len ≤ s + 1
      · rw [chunk_lens, if_neg h0, if_pos h1]
        rw [show len + (s + 1) - 1 = (len - 1) + 1 * (s + 1) by omega,
          Nat.add_mul_div_right _ _ (Nat.succ_pos s), Nat.div_eq_of_lt (by omega)]
        rfl
      · rw [chunk_lens, if_neg h0, if_neg h1]
        simp only [List.length_cons, ih (len - (s + 1)) (by omega)]
        rw [show len - (s + 1) + (s + 1) - 1 = len - 1 by omega,
          show len + (s + 1) - 1 = len - 1 + (s + 1) by omega,
          Nat.add_div_right _ (Nat.succ_pos s)]

/-- C3 (amended): for `1 ≤ t ≤ w·h` threads, `render_into` writes every
output element exactly once — the ordered list of written flat indices
is exactly `0, …, w·h − 1` — and pixel `(x, y)` is written at flat index
`y·w + x`; the chunk count is `⌈len / ⌊len/t⌋⌉`, which equals `t` when
`t` divides `len` but exceeds it otherwise (the remainder forms an extra
chunk rather than being folded into the last; see the counterexample). -/
theorem C3_render_into_writes_each_once {α : Type} (w h t : ℕ) (f : ℕ → ℕ → α)
    (ht : 1 ≤ t) (hle : t ≤ w * h) :
    ∃ l, render_into_writes w h t f = some l ∧
      l = (List.range (w * h)).map (fun i => (i, f (i % w) (i / w))) ∧
      (∀ x y, x < w → y < h → (y * w + x, f x y) ∈ l) ∧
      (chunk_lens (w * h) ((w * h) / t)).length = (w * h + (w * h) / t - 1) / ((w * h) / t) := by
  have hsize : 0 < (w * h) / t := Nat.div_pos hle (by omega)
  obtain ⟨s, hs⟩ : ∃ s, (w * h) / t = s + 1 := ⟨(w * h) / t - 1, by omega⟩
  refine ⟨(List.range (w * h)).map (fun i => (i, f (i % w) (i / w))), ?_, rfl, ?_, ?_⟩
  · simp only [render_into_writes]
    rw [if_neg (by omega)]
    congr 1
    rw [hs]
    have hk := chunk_writes w f s (w * h) 0
    simp only [Nat.zero_mul] at hk
    rw [← List.range_eq_range'] at hk
    exact hk
  · intro x y hx hy
    have hlt : y * w + x < w * h := by
      calc y * w + x < y * w + w := by omega
        _ = (y + 1) * w := by ring
        _ ≤ h * w := Nat.mul_le_mul_right w (Nat.succ_le_of_lt hy)
        _ = w * h := Nat.mul_comm h w
    rw [List.mem_map]
    refine ⟨y * w + x, List.mem_range.mpr hlt, ?_⟩
    rw [show y * w + x = x + y * w by ring]
    rw [Nat.add_mul_mod_self_right, Nat.mod_eq_of_lt hx,
      Nat.add_mul_div_right _ _ (by omega : 0 < w), Nat.div_eq_of_lt hx]
    simp
  · rw [hs]
    exact chunk_lens_length s (w * h)

/-- C3 witness: the amended theorem applied at a 2×1 image with 2
threads. -/
theorem C3_render_into_writes_each_once_witness :
    ∃ l, render_into_writes 2 1 2 (fun x y => x + 10 * y) = some l ∧
      l = (List.range (2 * 1)).map (fun i => (i, i % 2 + 10 * (i / 2))) ∧
      (∀ x y, x < 2 → y < 1 → (y * 2 + x, x + 10 * y) ∈ l) ∧
      (chunk_lens (2 * 1) ((2 * 1) / 2)).length = (2 * 1 + (2 * 1) / 2 - 1) / ((2 * 1) / 2) :=
  C3_render_into_writes_each_once 2 1 2 (fun x y => x + 10 * y) (by decide) (by decide)

/-- Helper: the dot product is symmetric. -/
theorem dot_comm (a b : Vec3) : a.dot b = b.dot a := by
  unfold Vec3.dot
  ring

/-- Helper: every hit returned by the traversal loop passed the
back-face test against the ray direction, and its material was sampled
from a non-air block present in the grid, with the normal of the chosen
face. -/
theorem lux_loop_hit_shape (s : LuxScene) (dir : Vec3) :
    ∀ fuel pos blk dist hit, lux_cast_loop s dir fuel pos blk dist = some hit →
      dir.dot hit.normal < 0 ∧
      ∃ blk2 b fa uv, s.scene.block blk2 = some b ∧ b ≠ Block.Air ∧
        hit.material = s.textures.sample b fa uv ∧ hit.normal = Face.normal fa := by
  intro fuel
  induction fuel with
  | zero =>
    intro pos blk dist hit h
    exact absurd h (by simp [lux_cast_loop])
  | succ fuel ih =>
    intro pos blk dist hit h
    rw [lux_cast_loop] at h
    rcases hblk : s.scene.block blk with _ | b <;> rw [hblk] at h
    · exact absurd h (by simp)
    · simp only at h
      by_cases hair : b ≠ Block.Air
      · rw [if_pos hair] at h
        by_cases hdot : Vec3.dot (face_and_uv pos blk).1.normal dir < 0
        · rw [if_pos hdot] at h
          simp only at h
          obtain rfl := Option.some.inj h
          refine ⟨by rw [dot_comm]; exact hdot, blk, b, (face_and_uv pos blk).1,
            (face_and_uv pos blk).2, hblk, hair, rfl, rfl⟩
        · rw [if_neg hdot] at h
          simp only at h
          rcases hstep : next_step pos blk dir with _ | td <;> rw [hstep] at h
          · exact absurd h (by simp)
          · exact ih _ _ _ _ h
      · rw [if_neg hair] at h
        simp only at h
        rcases hstep : next_step pos blk dir with _ | td <;> rw [hstep] at h
        · exact absurd h (by simp)
        · exact ih _ _ _ _ h

/-- Helper: the concrete traversal of `ray4` through `scene4` steps
through the air cells (0,0,0), (1,0,0), (2,0,0) and returns the hit on
the stone block at (3,0,0): face XNeg, normal (−1,0,0), UV (1/2,1/2),
accumulated distance 5/2. -/
theorem lux4_run :
    lux_scene4.cast_ray 48 ray4 =
      some ⟨tex4.sample Block.Stone Face.XNeg ⟨1/2, 1/2⟩, ⟨3, 1/2, 1/2⟩, ⟨-1, 0, 0⟩, 5/2⟩ := by
  have hfloor : (⌊(1/2 : ℝ)⌋ : ℤ) = 0 := by
    norm_num [Int.floor_eq_iff]
  have hclamp : clamp_origin ray4 = some ⟨1/2, 1/2, 1/2⟩ := by
    unfold clamp_origin ray4
    rw [if_pos (by norm_num)]
  have hA : ∀ (f : ℕ) (d : ℝ),
      lux_cast_loop lux_scene4 ⟨1, 0, 0⟩ (f + 1) ⟨1/2, 1/2, 1/2⟩ ⟨0, 0, 0⟩ d =
        lux_cast_loop lux_scene4 ⟨1, 0, 0⟩ f ⟨1, 1/2, 1/2⟩ ⟨1, 0, 0⟩ (d + 1/2) := by
    intro f d
    rw [lux_cast_loop]
    norm_num [lux_scene4, scene4, BloxScene.block, linearize, next_step, time_to_edge,
      time_lt, face_and_uv, Face.normal, Vec3.dot, add_vec, mul_vec_real, add_ivec,
      sub_vec, IVec3.as_vec3]
  have hB : ∀ (f : ℕ) (d : ℝ),
      lux_cast_loop lux_scene4 ⟨1, 0, 0⟩ (f + 1) ⟨1, 1/2, 1/2⟩ ⟨1, 0, 0⟩ d =
        lux_cast_loop lux_scene4 ⟨1, 0, 0⟩ f ⟨2, 1/2, 1/2⟩ ⟨2, 0, 0⟩ (d + 1) := by
    intro f d
    rw [lux_cast_loop]
    norm_num [lux_scene4, scene4, BloxScene.block, linearize, next_step, time_to_edge,
      time_lt, face_and_uv, Face.normal, Vec3.dot, add_vec, mul_vec_real, add_ivec,
      sub_vec, IVec3.as_vec3, show Int.toNat 1 = 1 from rfl,
      show |(1:ℝ)/2| = 1/2 from abs_of_nonneg (by norm_num)]
  have hC : ∀ (f : ℕ) (d : ℝ),
      lux_cast_loop lux_scene4 ⟨1, 0, 0⟩ (f + 1) ⟨2, 1/2, 1/2⟩ ⟨2, 0, 0⟩ d =
        lux_cast_loop lux_scene4 ⟨1, 0, 0⟩ f ⟨3, 1/2, 1/2⟩ ⟨3, 0, 0⟩ (d + 1) := by
    intro f d
    rw [lux_cast_loop]
    norm_num [lux_scene4, scene4, BloxScene.block, linearize, next_step, time_to_edge,
      time_lt, face_and_uv, Face.normal, Vec3.dot, add_vec, mul_vec_real, add_ivec,
      sub_vec, IVec3.as_vec3, show Int.toNat 2 = 2 from rfl,
      show |(1:ℝ)/2| = 1/2 from abs_of_nonneg (by norm_num)]
  have hD : ∀ (f : ℕ) (d : ℝ),
      lux_cast_loop lux_scene4 ⟨1, 0, 0⟩ (f + 1) ⟨3, 1/2, 1/2⟩ ⟨3, 0, 0⟩ d =
        some ⟨tex4.sample Block.Stone Face.XNeg ⟨1/2, 1/2⟩, ⟨3, 1/2, 1/2⟩, ⟨-1, 0, 0⟩, d⟩ := by
    intro f d
    rw [lux_cast_loop]
    norm_num [lux_scene4, scene4, BloxScene.block, linearize, face_and_uv, Face.normal,
      Vec3.dot, sub_vec, IVec3.as_vec3,
      show Int.toNat 3 = 3 from rfl,
      show |(1:ℝ)/2| = 1/2 from abs_of_nonneg (by norm_num)]
    simp
  unfold LuxScene.cast_ray
  rw [hclamp]
  simp only
  norm_num [Vec3.floor_ivec, min_ivec, hfloor, Vec3.distance, Vec3.distance_squared,
    Vec3.length_squared, sub_vec, ray4, Real.sqrt_zero]
  rw [show (48 : ℕ) = 47 + 1 from rfl, hA 47 0,
    show (47 : ℕ) = 46 + 1 from rfl, hB 46 _,
    show (46 : ℕ) = 45 + 1 from rfl, hC 45 _,
    show (45 : ℕ) = 44 + 1 from rfl, hD 44 _]
  norm_num

/-- C5: every hit accepted by the voxel intersector has
`dot(ray.direction, normal) < 0`: back faces are rejected by the guard
in the traversal loop, at every fuel bound of the loop. -/
theorem C5_back_face_rejection (s : LuxScene) (fuel : ℕ) (ray : Ray) (hit : RayHit)
    (h : s.cast_ray fuel ray = some hit) :
    ray.direction.dot hit.normal < 0 := by
  unfold LuxScene.cast_ray at h
  rcases hclamp : clamp_origin ray with _ | pos0 <;> rw [hclamp] at h
  · exact absurd h (by simp)
  · simp only at h
    exact (lux_loop_hit_shape s ray.direction fuel _ _ _ hit h).1

/-- C5 witness: the back-face theorem applied to the concrete run of
`ray4` through `scene4` (normal (−1,0,0), direction (1,0,0)). -/
theorem C5_back_face_rejection_witness :
    Vec3.dot ray4.direction ⟨-1, 0, 0⟩ < 0 :=
  C5_back_face_rejection lux_scene4 48 ray4
    ⟨tex4.sample Block.Stone Face.XNeg ⟨1/2, 1/2⟩, ⟨3, 1/2, 1/2⟩, ⟨-1, 0, 0⟩, 5/2⟩ lux4_run

/-- C10: every hit returned by the voxel intersector carries a material
sampled by the texture sampler from a block of the grid that is not Air,
so the Air branch of `BlockTextures::sample` (which would produce the
NaN albedo) is unreachable from `cast_ray`. -/
theorem C10_air_never_sampled (s : LuxScene) (fuel : ℕ) (ray : Ray) (hit : RayHit)
    (h : s.cast_ray fuel ray = some hit) :
    ∃ blk2 b fa uv, s.scene.block blk2 = some b ∧ b ≠ Block.Air ∧
      hit.material = s.textures.sample b fa uv := by
  unfold LuxScene.cast_ray at h
  rcases hclamp : clamp_origin ray with _ | pos0 <;> rw [hclamp] at h
  · exact absurd h (by simp)
  · simp only at h
    obtain ⟨_, blk2, b, fa, uv, h1, h2, h3, _⟩ :=
      lux_loop_hit_shape s ray.direction fuel _ _ _ hit h
    exact ⟨blk2, b, fa, uv, h1, h2, h3⟩

/-- C10 witness: the theorem applied to the concrete run of `ray4`
through `scene4`. -/
theorem C10_air_never_sampled_witness :
    ∃ blk2 b fa uv, lux_scene4.scene.block blk2 = some b ∧ b ≠ Block.Air ∧
      tex4.sample Block.Stone Face.XNeg ⟨1/2, 1/2⟩ = lux_scene4.textures.sample b fa uv :=
  C10_air_never_sampled lux_scene4 48 ray4
    ⟨tex4.sample Block.Stone Face.XNeg ⟨1/2, 1/2⟩, ⟨3, 1/2, 1/2⟩, ⟨-1, 0, 0⟩, 5/2⟩ lux4_run

/-- C4: the voxel intersector's `cast_ray` takes no maximum-distance
parameter (unlike the `lux::Scene` trait it implements) and bounds
nothing by distance: the concrete ray `ray4` yields a hit at distance
`5/2`, which a caller requesting a maximum distance of `1` (for example
the shadow ray of a point light at distance 1) would still receive —
contradicting the claim that returned hits have distance at most the
requested maximum. -/
theorem C4_max_distance_ignored :
    lux_scene4.cast_ray 48 ray4 =
      some ⟨tex4.sample Block.Stone Face.XNeg ⟨1/2, 1/2⟩, ⟨3, 1/2, 1/2⟩, ⟨-1, 0, 0⟩, 5/2⟩ ∧
    ¬ ((5 : ℝ)/2 ≤ 1) :=
  ⟨lux4_run, by norm_num⟩
